import Mathlib

/-!
Verification of jobpt_crawler (src/jobpt_crawler.py) against its
natural-language specification.

The development shallowly embeds the crawler: Python dicts become Lean
structures, the Selenium-driven page is an abstract environment (a function
from scroll-cycle index to the page content observed in that cycle), Python
exceptions become explicit constructors, and the unspecified iteration order
of a Python set is an explicit enumeration parameter required to be a
permutation of the set contents.
-/

/-! ## Constants (src/jobpt_crawler.py lines 47 and 48) -/

/-- Constant BASE_URL of the source. -/
def BASE_URL : String := "https://www.wanted.co.kr"

/-- Constant LIST_URL of the source. -/
def LIST_URL : String :=
  BASE_URL ++ "/wdlist?country=kr&job_sort=job.popularity_order&years=-1&locations=all"

/-- The zero-width space stripped on line 60 of the source. -/
def zwsp : Char := '\u200B'

/-- The no-break space replaced on line 61 of the source. -/
def nbsp : Char := '\u00A0'

/-! ## Text normalization: clean (src/jobpt_crawler.py lines 50 to 63)

Python str.replace(old, new) substitutes every non-overlapping occurrence of
old, scanning left to right.  The clean pipeline only ever uses one- and
two-character patterns, so the embedding provides the two corresponding
specialisations, both faithful to the scan-left-to-right semantics: at each
position, when the pattern matches it is consumed and the replacement
emitted, otherwise a single character is copied. -/

/-- Python str.replace for a single-character pattern. -/
def replace1 (c : Char) (rep : List Char) : List Char → List Char
  | [] => []
  | d :: rest => if d = c then rep ++ replace1 c rep rest else d :: replace1 c rep rest

/-- Python str.replace for a two-character pattern. -/
def replace2 (c1 c2 : Char) (rep : List Char) : List Char → List Char
  | [] => []
  | [d] => [d]
  | d :: e :: rest =>
    if d = c1 ∧ e = c2 then rep ++ replace2 c1 c2 rep rest
    else d :: replace2 c1 c2 rep (e :: rest)

/-- Python str.strip: drop whitespace from both ends (right end first via
reverse).  Python strips Unicode whitespace; the chars reaching this point are
ASCII whitespace or ordinary text, where Char.isWhitespace agrees. -/
def stripL (s : List Char) : List Char :=
  (s.reverse.dropWhile Char.isWhitespace).reverse.dropWhile Char.isWhitespace

/-- The clean pipeline of the source, on char lists, with the exact
replacement order of lines 55 to 62: bullet, black square, newline, literal
backslash-n, double space, zero-width space, no-break space, then strip. -/
def cleanL (s : List Char) : List Char :=
  stripL
    (replace1 nbsp [' ']
      (replace1 zwsp []
        (replace2 ' ' ' ' [' ']
          (replace2 '\\' 'n' [' ']
            (replace1 '\n' [' ']
              (replace1 '■' []
                (replace1 '•' [] s)))))))

/-- clean on strings (the branch taken when the argument is a str). -/
def clean (s : String) : String := String.mk (cleanL s.data)

/-- The values Python may hand to clean: a str, None, or anything else.
clean starts with an isinstance check (line 52). -/
inductive PyVal where
  | pyStr (s : String)
  | pyNone
  | pyOther
  deriving DecidableEq

/-- Whether a PyVal is a str (the isinstance(text, str) test of line 52). -/
def PyVal.isStr : PyVal → Bool
  | .pyStr _ => true
  | _ => false

/-- clean as called on an arbitrary Python value: non-str input short-circuits
to the empty string (line 53). -/
def cleanPy : PyVal → String
  | .pyStr s => clean s
  | _ => ""

/-- Python substring containment (the `in` operator on str), on char lists. -/
def hasSub (pat : List Char) : List Char → Bool
  | [] => pat.isEmpty
  | c :: rest => pat.isPrefixOf (c :: rest) || hasSub pat rest

/-- The junk-freedom check of the spec for clean output, restricted to what
the code guarantees: no leading or trailing whitespace and none of the five
junk characters bullet, black square, zero-width space, no-break space,
newline anywhere. -/
def isCleanOutput (out : List Char) : Bool :=
  (match out.head? with | some c => !c.isWhitespace | none => true) &&
  (match out.getLast? with | some c => !c.isWhitespace | none => true) &&
  out.all (fun c => !(c == '•' || c == '■' || c == zwsp || c == nbsp || c == '\n'))

/-! ## Markup model and field extraction (src/jobpt_crawler.py lines 65 to 77
and 133 to 192)

BeautifulSoup queries on a parsed page either find an element or return
None; the embedding records, for each selector the extractor uses, the text
that selector would observe (or none when the element is absent).  Malformed
or empty markup is the value with every component absent. -/

/-- What extract_block sees inside one description div: the text of the
nested span.wds-h4ga6o span selector when present (line 69), and the
fallback get_text of the whole div (line 74). -/
structure BlockContent where
  wdsSpanText : Option String
  allText : String
  deriving DecidableEq

/-- The article.JobDueTime container (lines 142 to 149): text of its h2 and
of its first span, when present. -/
structure DueArticle where
  h2Text : Option String
  spanText : Option String
  deriving DecidableEq

/-- The article.JobWorkPlace container (lines 152 to 157). -/
structure WorkArticle where
  spanText : Option String
  deriving DecidableEq

/-- One div.JobDescription__paragraph sibling (lines 175 to 182): its h3
heading text when present, and its block content. -/
structure SectionDiv where
  h3Text : Option String
  block : BlockContent
  deriving DecidableEq

/-- A rendered detail page as the extractor queries it. -/
structure Markup where
  titleText : Option String
  companyText : Option String
  dueArticle : Option DueArticle
  workArticle : Option WorkArticle
  introDiv : Option BlockContent
  paragraphs : List SectionDiv
  deriving DecidableEq

/-- The detail dict of lines 160 to 167; field names romanize the Korean
keys 포지션상세, 주요업무, 자격요건, 우대사항, 채용 전형, 혜택 및 복지. -/
structure Sections where
  positionDetail : String
  mainTasks : String
  qualifications : String
  preferredPoints : String
  hiringProcess : String
  benefits : String
  deriving DecidableEq

/-- The fully extracted record of lines 185 to 192: the 11 named fields
url, title, company, closing date (마감일), work location (근무지역) and the
six section fields. -/
structure PostingDetail where
  url : String
  title : String
  company : String
  dueDate : String
  workLocation : String
  positionDetail : String
  mainTasks : String
  qualifications : String
  preferredPoints : String
  hiringProcess : String
  benefits : String
  deriving DecidableEq

/-- extract_block (lines 65 to 77): prefer the nested span text, fall back
to all text of the div; both pass through clean.  The try/except around the
body returns the empty string on an internal error; in the embedding every
query is total, so that branch has no counterpart. -/
def extract_block (b : BlockContent) : String :=
  match b.wdsSpanText with
  | some t => clean t
  | none => clean b.allText

/-- One step of the section scan of lines 175 to 182: a div without an h3 is
skipped; otherwise the cleaned heading selects which of the six keys to
overwrite, and an unrecognized heading is ignored. -/
def updateSection (d : Sections) (p : SectionDiv) : Sections :=
  match p.h3Text with
  | none => d
  | some t =>
    let key := clean t
    let v := extract_block p.block
    if key = "포지션상세" then { d with positionDetail := v }
    else if key = "주요업무" then { d with mainTasks := v }
    else if key = "자격요건" then { d with qualifications := v }
    else if key = "우대사항" then { d with preferredPoints := v }
    else if key = "채용 전형" then { d with hiringProcess := v }
    else if key = "혜택 및 복지" then { d with benefits := v }
    else d

/-- The per-attempt field extraction of lines 133 to 192, from the parsed
soup of one rendered page.  Every selector miss yields the empty string, the
closing date additionally requires the 마감일 marker inside the h2 text
(line 146), and the url is BASE_URL plus the relative href (line 110). -/
def extractRecord (href : String) (m : Markup) : PostingDetail :=
  let title := match m.titleText with | some t => clean t | none => ""
  let company := match m.companyText with | some t => clean t | none => ""
  let dueDate :=
    match m.dueArticle with
    | none => ""
    | some da =>
      match da.h2Text with
      | none => ""
      | some h2t =>
        if hasSub "마감일".data h2t.data then
          match da.spanText with
          | some s => clean s
          | none => ""
        else ""
  let workLocation :=
    match m.workArticle with
    | none => ""
    | some wa =>
      match wa.spanText with
      | some s => clean s
      | none => ""
  let init : Sections :=
    { positionDetail := match m.introDiv with | some d => extract_block d | none => ""
      mainTasks := ""
      qualifications := ""
      preferredPoints := ""
      hiringProcess := ""
      benefits := "" }
  let secs := m.paragraphs.foldl updateSection init
  { url := BASE_URL ++ href
    title := title
    company := company
    dueDate := dueDate
    workLocation := workLocation
    positionDetail := secs.positionDetail
    mainTasks := secs.mainTasks
    qualifications := secs.qualifications
    preferredPoints := secs.preferredPoints
    hiringProcess := secs.hiringProcess
    benefits := secs.benefits }

/-! ## Detail fetching: parse_detail (src/jobpt_crawler.py lines 108 to 207) -/

/-- The outcome of one navigation attempt inside the retry loop: an
exception (timeout, navigation failure) or a rendered page. -/
inductive Attempt where
  | exn
  | page (m : Markup)
  deriving DecidableEq

/-- Whether an attempt yields no usable data: an exception, or a page whose
extracted record has empty title and empty company (the check of line 195). -/
def attemptEmptyData (href : String) : Attempt → Bool
  | .exn => true
  | .page m =>
    decide ((extractRecord href m).title = "") && decide ((extractRecord href m).company = "")

/-- parse_detail (lines 108 to 207) over the list of attempt outcomes the
environment produces for the successive iterations of the retry loop (the
list length is the retry count, 2 by default).  An exception sleeps and
retries (line 204); a record with neither title nor company logs and retries
(line 199); exhausting the attempts returns None (line 207). -/
def parse_detail (href : String) : List Attempt → Option PostingDetail
  | [] => none
  | .exn :: rest => parse_detail href rest
  | .page m :: rest =>
    let r := extractRecord href m
    if r.title = "" ∧ r.company = "" then parse_detail href rest
    else some r

/-! ## Orchestration of detail crawling (lines 345 to 372) -/

/-- One collected job: the parsed record plus the metadata added on lines
358 to 362 (source tag and 1-based link index; the crawl timestamp is wall
clock and is modeled out). -/
structure CrawledJob where
  detail : PostingDetail
  source : String
  linkIndex : Nat
  deriving DecidableEq

/-- crawl_job_details (lines 345 to 372): fetch every link in order, keep
the non-None results in order, tag each with source "wanted" and its 1-based
position among the input links. -/
def crawl_job_details (links : List String) (fetch : String → Option PostingDetail) :
    List CrawledJob :=
  links.enum.filterMap fun p => (fetch p.2).map fun r => ⟨r, "wanted", p.1 + 1⟩

/-! ## Link discovery: collect_job_links (src/jobpt_crawler.py lines 277 to 343)

The listing page is an environment: for scroll cycle t it yields the card
anchors visible when cycle t scans the page source, and the scrollable
height measured after the scroll at the end of cycle t — or none when the
browser raises an exception during cycle t (the initial navigation and wait
count as cycle 0).  The Python set hrefs is modeled as the insertion-ordered
duplicate-free list of its elements; since set iteration order is
unspecified in Python, the final list(hrefs) conversion of line 336 takes an
arbitrary enumeration function constrained to be a permutation. -/

/-- What one scroll cycle observes on the listing page. -/
structure PageView where
  links : List String
  height : Nat
  deriving DecidableEq

/-- The mutable loop state of lines 294 to 296: discovered links, the
consecutive-void counter, the last observed height, plus the cycle index. -/
structure CrawlState where
  hrefs : List String
  voidCnt : Nat
  lastHeight : Nat
  cycles : Nat
  deriving DecidableEq

/-- The state at line 296: no links, void counter 0, last height 0, before
cycle 0. -/
def initState : CrawlState := ⟨[], 0, 0, 0⟩

/-- Why the discovery loop stopped. -/
inductive StopReason where
  | sizeReached
  | heightStable
  | voidLimit
  deriving DecidableEq

/-- Insert every found href into the set (lines 307 to 310): already-present
links are ignored, new ones are appended, preserving discovery order of the
model list. -/
def addLinks (hrefs found : List String) : List String :=
  found.foldl (fun acc h => if h ∈ acc then acc else acc ++ [h]) hrefs

/-- One iteration of the while body (lines 300 to 334) on page view pv:
scan and insert, update the void counter (reset on progress, else
increment), break when the target size is reached (line 322), break when
the measured height equals the previous one (line 331), otherwise record
the new height and continue into the next cycle. -/
def discoveryCycle (maxLinks : Nat) (st : CrawlState) (pv : PageView) :
    CrawlState ⊕ (CrawlState × StopReason) :=
  let hrefs := addLinks st.hrefs pv.links
  let voidCnt := if st.hrefs.length < hrefs.length then 0 else st.voidCnt + 1
  if maxLinks ≤ hrefs.length then
    Sum.inr (⟨hrefs, voidCnt, st.lastHeight, st.cycles⟩, StopReason.sizeReached)
  else if pv.height = st.lastHeight then
    Sum.inr (⟨hrefs, voidCnt, st.lastHeight, st.cycles⟩, StopReason.heightStable)
  else
    Sum.inl ⟨hrefs, voidCnt, pv.height, st.cycles + 1⟩

/-- How a discovery run ends: a normal stop, a caught exception (line 341)
with the state reached so far, or fuel exhaustion of the embedding. -/
inductive CrawlResult where
  | ok (st : CrawlState) (r : StopReason)
  | exn (st : CrawlState)
  | fuelOut (st : CrawlState)
  deriving DecidableEq

/-- The while loop of line 300, fuel-indexed: the loop condition re-checks
size and void counter at the top of each iteration, then the body runs on
the page view of the current cycle; an exception anywhere in the cycle
aborts into the except handler. -/
def runLoop (maxLinks : Nat) (page : Nat → Option PageView) :
    Nat → CrawlState → CrawlResult
  | 0, st => CrawlResult.fuelOut st
  | fuel + 1, st =>
    if maxLinks ≤ st.hrefs.length then CrawlResult.ok st StopReason.sizeReached
    else if 3 ≤ st.voidCnt then CrawlResult.ok st StopReason.voidLimit
    else
      match page st.cycles with
      | none => CrawlResult.exn st
      | some pv =>
        match discoveryCycle maxLinks st pv with
        | Sum.inr r => CrawlResult.ok r.1 r.2
        | Sum.inl st2 => runLoop maxLinks page fuel st2

/-- collect_job_links (lines 277 to 343): run the loop from the empty state;
on a normal stop return list(hrefs)[:max_links] through the enumeration
enum (line 336); on an exception return the empty list (line 343).  The
fuelOut result is an artifact of the embedding and is mapped to none; the
termination theorem shows enough fuel always exists. -/
def collect_job_links (maxLinks : Nat) (page : Nat → Option PageView)
    (enum : List String → List String) (fuel : Nat) : Option (List String) :=
  match runLoop maxLinks page fuel initState with
  | CrawlResult.ok st _ => some ((enum st.hrefs).take maxLinks)
  | CrawlResult.exn _ => some []
  | CrawlResult.fuelOut _ => none

/-- The stop-condition soundness check for a finished run: a sizeReached
stop has at least maxLinks discovered, a voidLimit stop has a void counter
of exactly 3, a heightStable stop measured the same height as the previous
cycle recorded (initially 0), and exceptions or fuel exhaustion fail the
check. -/
def stopFact (page : Nat → Option PageView) (maxLinks : Nat) : CrawlResult → Bool
  | CrawlResult.ok st StopReason.sizeReached => decide (maxLinks ≤ st.hrefs.length)
  | CrawlResult.ok st StopReason.voidLimit => decide (st.voidCnt = 3)
  | CrawlResult.ok st StopReason.heightStable =>
    decide ((page st.cycles).map PageView.height = some st.lastHeight)
  | _ => false

/-! ## Documents and Pinecone batching (src/jobpt_crawler.py lines 374 to 441) -/

/-- A langchain Document as create_documents builds it (lines 379 to 403):
the merged page content and the fixed metadata key set. -/
structure PineDocument where
  page_content : String
  url : String
  title : String
  company : String
  dueDate : String
  workLocation : String
  expLevel : String
  source_file : String
  original_url : String
  deriving DecidableEq

/-- One Document from one job (lines 379 to 403).  The 신입경력 key is
never set by parse_detail and the nested metadata dict is never present, so
those lookups default to the empty string. -/
def mkDocument (j : CrawledJob) : PineDocument :=
  { page_content := String.intercalate " | "
      [ "url: " ++ j.detail.url
      , "title: " ++ j.detail.title
      , "company: " ++ j.detail.company
      , "마감일: " ++ j.detail.dueDate
      , "근무지역: " ++ clean j.detail.workLocation
      , "신입경력: " ++ clean ""
      , "포지션상세: " ++ clean j.detail.positionDetail
      , "주요업무: " ++ clean j.detail.mainTasks
      , "자격요건: " ++ clean j.detail.qualifications
      , "우대사항: " ++ clean j.detail.preferredPoints
      , "채용 전형: " ++ clean j.detail.hiringProcess
      , "혜택 및 복지: " ++ clean j.detail.benefits ]
    url := j.detail.url
    title := j.detail.title
    company := j.detail.company
    dueDate := j.detail.dueDate
    workLocation := j.detail.workLocation
    expLevel := ""
    source_file := ""
    original_url := "" }

/-- create_documents (lines 374 to 405): one Document per job, in order. -/
def create_documents (jobs : List CrawledJob) : List PineDocument :=
  jobs.map mkDocument

/-- The slicing loop of line 420, fuel-indexed for computability: the
batches documents[i:i+10] for i = 0, 10, 20, ... -/
def chunkedAux : Nat → List PineDocument → List (List PineDocument)
  | 0, _ => []
  | _, [] => []
  | f + 1, d :: rest => ((d :: rest).take 10) :: chunkedAux f ((d :: rest).drop 10)

/-- The batch partition of save_to_pinecone: batch_size is 10 (line 417). -/
def chunked (l : List PineDocument) : List (List PineDocument) :=
  chunkedAux l.length l

/-- What happened to one batch: saved whole, or its add_documents call threw
and the batch was skipped (lines 424 to 431). -/
inductive BatchEvent where
  | saved (n : Nat)
  | failed (n : Nat)
  deriving DecidableEq

/-- The per-batch loop of lines 420 to 434 on the batch list, with fails
telling which batch indices make add_documents throw; every batch is
attempted in order, a failure is logged and skipped via continue. -/
def saveLoop (fails : Nat → Bool) : Nat → List (List PineDocument) → List BatchEvent
  | _, [] => []
  | i, b :: rest =>
    (if fails i then BatchEvent.failed b.length else BatchEvent.saved b.length)
      :: saveLoop fails (i + 1) rest

/-- total_saved as accumulated on line 426: the sizes of the saved batches. -/
def savedCount : List BatchEvent → Nat
  | [] => 0
  | BatchEvent.saved n :: r => n + savedCount r
  | BatchEvent.failed _ :: r => savedCount r

/-- save_to_pinecone (lines 407 to 441): empty input returns 0 immediately
(line 411); otherwise every batch is attempted in order and the saved count
is returned together with the trace of batch attempts. -/
def save_to_pinecone (fails : Nat → Bool) (docs : List PineDocument) :
    Nat × List BatchEvent :=
  if docs.isEmpty then (0, [])
  else
    let evs := saveLoop fails 0 (chunked docs)
    (savedCount evs, evs)

/-! ## The main orchestration (src/jobpt_crawler.py lines 468 to 539) -/

/-- The run summary of lines 511 to 518, reduced to its counts; the success
rate is a pure function of the first two counts, and the backup path and
timestamp are wall-clock artifacts modeled out. -/
structure Summary where
  total_links : Nat
  total_crawled : Nat
  total_saved : Nat
  deriving DecidableEq

/-- main after session establishment (lines 489 to 523): collect links,
return early without a summary when none were collected (line 493), crawl
details, return early without a summary when none succeeded (line 499),
otherwise build documents, save them, and emit the summary. -/
def mainModel (maxLinks : Nat) (page : Nat → Option PageView)
    (enum : List String → List String) (fuel : Nat)
    (attempts : String → List Attempt) (fails : Nat → Bool) : Option Summary :=
  match collect_job_links maxLinks page enum fuel with
  | none => none
  | some links =>
    if links.isEmpty then none
    else
      let jobs := crawl_job_details links fun h => parse_detail h (attempts h)
      if jobs.isEmpty then none
      else
        let docs := create_documents jobs
        let saved := (save_to_pinecone fails docs).1
        some ⟨links.length, jobs.length, saved⟩

/-! ## Lemmas about the clean pipeline -/

/-- Characters of a single-character replacement come from the input minus
the pattern character, or from the replacement. -/
theorem mem_replace1 {x c : Char} {rep s : List Char}
    (hx : x ∈ replace1 c rep s) : (x ∈ s ∧ x ≠ c) ∨ x ∈ rep := by
  induction s with
  | nil => simp [replace1] at hx
  | cons d rest ih =>
    by_cases hd : d = c
    · simp only [replace1, if_pos hd, List.mem_append] at hx
      rcases hx with hx | hx
      · exact Or.inr hx
      · rcases ih hx with ⟨h1, h2⟩ | h1
        · exact Or.inl ⟨List.mem_cons_of_mem d h1, h2⟩
        · exact Or.inr h1
    · simp only [replace1, if_neg hd, List.mem_cons] at hx
      rcases hx with rfl | hx
      · exact Or.inl ⟨List.mem_cons_self x rest, hd⟩
      · rcases ih hx with ⟨h1, h2⟩ | h1
        · exact Or.inl ⟨List.mem_cons_of_mem d h1, h2⟩
        · exact Or.inr h1

/-- Characters of a two-character replacement come from the input or from
the replacement. -/
theorem mem_replace2 {x c1 c2 : Char} {rep s : List Char}
    (hx : x ∈ replace2 c1 c2 rep s) : x ∈ s ∨ x ∈ rep := by
  induction s using replace2.induct c1 c2 rep with
  | case1 => simp [replace2] at hx
  | case2 d => simpa [replace2] using Or.inl hx
  | case3 d e rest h ih =>
    rw [replace2, if_pos h, List.mem_append] at hx
    rcases hx with hx | hx
    · exact Or.inr hx
    · rcases ih hx with h1 | h1
      · exact Or.inl (List.mem_cons_of_mem d (List.mem_cons_of_mem e h1))
      · exact Or.inr h1
  | case4 d e rest h ih =>
    rw [replace2, if_neg h, List.mem_cons] at hx
    rcases hx with rfl | hx
    · exact Or.inl (List.mem_cons_self x (e :: rest))
    · rcases ih hx with h1 | h1
      · exact Or.inl (List.mem_cons_of_mem d h1)
      · exact Or.inr h1

/-- dropWhile only removes elements. -/
theorem mem_dropWhileL {x : Char} {p : Char → Bool} {s : List Char}
    (hx : x ∈ s.dropWhile p) : x ∈ s := by
  induction s with
  | nil => simp [List.dropWhile] at hx
  | cons d rest ih =>
    rw [List.dropWhile_cons] at hx
    by_cases hd : p d
    · exact List.mem_cons_of_mem d (ih (by simpa [hd] using hx))
    · simpa [hd] using hx

/-- The first survivor of dropWhile fails the predicate. -/
theorem head?_dropWhileL {c : Char} {p : Char → Bool} {s : List Char}
    (h : (s.dropWhile p).head? = some c) : p c = false := by
  induction s with
  | nil => simp [List.dropWhile] at h
  | cons d rest ih =>
    rw [List.dropWhile_cons] at h
    by_cases hd : p d
    · exact ih (by simpa [hd] using h)
    · rw [if_neg hd] at h
      cases h
      simpa using hd

/-- dropWhile keeps the last element when its result is nonempty. -/
theorem getLast?_dropWhileL {p : Char → Bool} {s : List Char}
    (h : s.dropWhile p ≠ []) : (s.dropWhile p).getLast? = s.getLast? := by
  induction s with
  | nil => simp [List.dropWhile] at h
  | cons d rest ih =>
    rw [List.dropWhile_cons]
    by_cases hd : p d
    · rw [if_pos hd]
      rw [List.dropWhile_cons, if_pos hd] at h
      have hrest : rest ≠ [] := by
        intro he
        rw [he] at h
        exact h (by simp [List.dropWhile])
      rw [ih h]
      cases rest with
      | nil => exact absurd rfl hrest
      | cons b l => simp [List.getLast?_cons_cons]
    · rw [if_neg hd]

/-- stripL only removes characters. -/
theorem mem_stripL {x : Char} {s : List Char} (hx : x ∈ stripL s) : x ∈ s := by
  unfold stripL at hx
  have h1 := mem_dropWhileL hx
  rw [List.mem_reverse] at h1
  have h2 := mem_dropWhileL h1
  rw [List.mem_reverse] at h2
  exact h2

/-- The first character of a stripped list is not whitespace. -/
theorem head?_stripL {c : Char} {s : List Char}
    (h : (stripL s).head? = some c) : c.isWhitespace = false := by
  unfold stripL at h
  exact head?_dropWhileL h

/-- The last character of a stripped list is not whitespace. -/
theorem getLast?_stripL {c : Char} {s : List Char}
    (h : (stripL s).getLast? = some c) : c.isWhitespace = false := by
  unfold stripL at h
  have hne : ((s.reverse.dropWhile Char.isWhitespace).reverse.dropWhile
      Char.isWhitespace) ≠ [] := by
    intro he
    rw [he] at h
    simp at h
  rw [getLast?_dropWhileL hne, List.getLast?_reverse] at h
  exact head?_dropWhileL h

/-- Every character surviving the whole clean pipeline avoids all five junk
characters: the bullet and the square are deleted first, the newline is
turned into a space before anything could recreate it, the zero-width and
no-break spaces are handled last and the only characters any later step
inserts are plain spaces. -/
theorem cleanL_not_bad {s : List Char} :
    ∀ x ∈ cleanL s, x ≠ '•' ∧ x ≠ '■' ∧ x ≠ zwsp ∧ x ≠ nbsp ∧ x ≠ '\n' := by
  intro x hx
  unfold cleanL at hx
  have hx7 := mem_stripL hx
  rcases mem_replace1 hx7 with ⟨hx6, hnb⟩ | hsp
  · rcases mem_replace1 hx6 with ⟨hx5, hzw⟩ | habs
    · rcases mem_replace2 hx5 with hx4 | hsp
      · rcases mem_replace2 hx4 with hx3 | hsp
        · rcases mem_replace1 hx3 with ⟨hx2, hnl⟩ | hsp
          · rcases mem_replace1 hx2 with ⟨hx1, hsq⟩ | habs
            · rcases mem_replace1 hx1 with ⟨_, hbu⟩ | habs
              · exact ⟨hbu, hsq, hzw, hnb, hnl⟩
              · simp at habs
            · simp at habs
          · rw [List.mem_singleton] at hsp
            subst hsp
            refine ⟨by decide, by decide, ?_, ?_, by decide⟩
            · intro hcon
              exact absurd hcon.symm (by decide)
            · intro hcon
              exact absurd hcon.symm (by decide)
        · rw [List.mem_singleton] at hsp
          subst hsp
          refine ⟨by decide, by decide, ?_, ?_, by decide⟩
          · intro hcon
            exact absurd hcon.symm (by decide)
          · intro hcon
            exact absurd hcon.symm (by decide)
      · rw [List.mem_singleton] at hsp
        subst hsp
        refine ⟨by decide, by decide, ?_, ?_, by decide⟩
        · intro hcon
          exact absurd hcon.symm (by decide)
        · intro hcon
          exact absurd hcon.symm (by decide)
    · simp at habs
  · rw [List.mem_singleton] at hsp
    subst hsp
    refine ⟨by decide, by decide, ?_, ?_, by decide⟩
    · intro hcon
      exact absurd hcon.symm (by decide)
    · intro hcon
      exact absurd hcon.symm (by decide)

/-- C7 (amended): for every string input, the output of clean is trimmed of
surrounding whitespace and contains no bullet marker, no black-square
marker, no zero-width space, no no-break space and no newline.  The
original claim additionally promised the absence of literal backslash-n
sequences and of doubled spaces; both can survive the pipeline (see the
counterexample), so the amended claim drops exactly those two tokens. -/
theorem clean_output_is_normalized (s : String) : isCleanOutput (clean s).data = true := by
  have hdata : (clean s).data = cleanL s.data := rfl
  rw [hdata]
  unfold isCleanOutput
  refine (Bool.and_eq_true _ _).mpr ⟨(Bool.and_eq_true _ _).mpr ⟨?_, ?_⟩, ?_⟩
  · cases hh : (cleanL s.data).head? with
    | none => rfl
    | some c =>
      have : c.isWhitespace = false := head?_stripL (by rw [← hh]; rfl)
      simp [this]
  · cases hh : (cleanL s.data).getLast? with
    | none => rfl
    | some c =>
      have : c.isWhitespace = false := getLast?_stripL (by rw [← hh]; rfl)
      simp [this]
  · rw [List.all_eq_true]
    intro c hc
    obtain ⟨h1, h2, h3, h4, h5⟩ := cleanL_not_bad c hc
    simp [beq_iff_eq, h1, h2, h3, h4, h5]

/-- C7 counterexample: the claim as frozen is false on the code.  A pair of
no-break spaces turns into a doubled space (both become plain spaces only
after the single doubled-space pass has run), a lone triple space survives
the single left-to-right doubled-space pass as a doubled space, and deleting
a zero-width space can splice a backslash and an n into a literal
backslash-n sequence. -/
theorem clean_output_counterexample :
    clean "a   b" = "a  b" ∧
    hasSub [' ', ' '] (clean "a   b").data = true ∧
    clean "a  b" = "a  b" ∧
    clean "\\\u200Bn" = "\\n" ∧
    hasSub ['\\', 'n'] (clean "\\\u200Bn").data = true :=
  ⟨rfl, rfl, rfl, rfl, rfl⟩

/-- C10: clean applied to a non-str value (such as the None of an absent
element) returns the empty string rather than raising a type error. -/
theorem clean_non_string_empty (v : PyVal) (h : v.isStr = false) : cleanPy v = "" := by
  cases v with
  | pyStr s => simp [PyVal.isStr] at h
  | pyNone => rfl
  | pyOther => rfl

/-- Witness for C10 at the concrete input None. -/
theorem clean_non_string_empty_witness : cleanPy PyVal.pyNone = "" :=
  clean_non_string_empty PyVal.pyNone rfl

/-! ## Field extraction claims -/

/-- C6: field extraction is total — extractRecord is a total function on
every markup value, including the fully absent one — and it produces the
full 11-field record with the empty string substituted for every field
whose element is absent; the url field is always BASE_URL plus the href. -/
theorem extractRecord_defaults (href : String) (m : Markup) :
    (extractRecord href m).url = BASE_URL ++ href ∧
    (m.titleText = none → (extractRecord href m).title = "") ∧
    (m.companyText = none → (extractRecord href m).company = "") ∧
    (m.dueArticle = none → (extractRecord href m).dueDate = "") ∧
    (m.workArticle = none → (extractRecord href m).workLocation = "") ∧
    (m.introDiv = none → m.paragraphs = [] →
      (extractRecord href m).positionDetail = "") ∧
    (m.paragraphs = [] →
      (extractRecord href m).mainTasks = "" ∧
      (extractRecord href m).qualifications = "" ∧
      (extractRecord href m).preferredPoints = "" ∧
      (extractRecord href m).hiringProcess = "" ∧
      (extractRecord href m).benefits = "") := by
  refine ⟨rfl, ?_, ?_, ?_, ?_, ?_, ?_⟩
  · intro h
    simp [extractRecord, h]
  · intro h
    simp [extractRecord, h]
  · intro h
    simp [extractRecord, h]
  · intro h
    simp [extractRecord, h]
  · intro h1 h2
    simp [extractRecord, h1, h2]
  · intro h
    refine ⟨?_, ?_, ?_, ?_, ?_⟩ <;> simp [extractRecord, h]

/-- The fully absent markup: what the extractor sees on empty or malformed
input, where every selector misses. -/
def emptyMarkup : Markup := ⟨none, none, none, none, none, []⟩

/-- Witness for C6: on the fully absent markup every content field defaults
to the empty string and the record is still fully shaped. -/
theorem extractRecord_defaults_witness :
    (extractRecord "/wd/0" emptyMarkup).url = "https://www.wanted.co.kr/wd/0" ∧
    (extractRecord "/wd/0" emptyMarkup).title = "" ∧
    (extractRecord "/wd/0" emptyMarkup).company = "" ∧
    (extractRecord "/wd/0" emptyMarkup).dueDate = "" ∧
    (extractRecord "/wd/0" emptyMarkup).workLocation = "" ∧
    (extractRecord "/wd/0" emptyMarkup).positionDetail = "" ∧
    (extractRecord "/wd/0" emptyMarkup).mainTasks = "" ∧
    (extractRecord "/wd/0" emptyMarkup).qualifications = "" ∧
    (extractRecord "/wd/0" emptyMarkup).preferredPoints = "" ∧
    (extractRecord "/wd/0" emptyMarkup).hiringProcess = "" ∧
    (extractRecord "/wd/0" emptyMarkup).benefits = "" := by
  obtain ⟨h1, h2, h3, h4, h5, h6, h7⟩ := extractRecord_defaults "/wd/0" emptyMarkup
  exact ⟨h1, h2 rfl, h3 rfl, h4 rfl, h5 rfl, h6 rfl rfl,
    (h7 rfl).1, (h7 rfl).2.1, (h7 rfl).2.2.1, (h7 rfl).2.2.2.1, (h7 rfl).2.2.2.2⟩

/-! ## Detail fetch claims -/

/-- A successful parse always carries a nonempty title or a nonempty
company: the usability check of line 195 gates every return of a record. -/
theorem parse_detail_some_usable (href : String) (attempts : List Attempt)
    (r : PostingDetail) (h : parse_detail href attempts = some r) :
    r.title ≠ "" ∨ r.company ≠ "" := by
  induction attempts with
  | nil => simp [parse_detail] at h
  | cons a rest ih =>
    cases a with
    | exn => exact ih h
    | page m =>
      rw [parse_detail] at h
      by_cases hu : (extractRecord href m).title = "" ∧ (extractRecord href m).company = ""
      · rw [if_pos hu] at h
        exact ih h
      · rw [if_neg hu] at h
        cases h
        rcases not_and_or.mp hu with h1 | h1
        · exact Or.inl h1
        · exact Or.inr h1

/-- Exhausting attempts that all yield no usable data returns None. -/
theorem parse_detail_all_empty_none (href : String) (attempts : List Attempt)
    (h : attempts.all (attemptEmptyData href) = true) :
    parse_detail href attempts = none := by
  induction attempts with
  | nil => rfl
  | cons a rest ih =>
    rw [List.all_cons, Bool.and_eq_true] at h
    cases a with
    | exn => exact ih h.2
    | page m =>
      rw [parse_detail]
      have hu : (extractRecord href m).title = "" ∧ (extractRecord href m).company = "" := by
        have := h.1
        rw [attemptEmptyData, Bool.and_eq_true, decide_eq_true_iff, decide_eq_true_iff] at this
        exact this
      rw [if_pos hu]
      exact ih h.2

/-- C5: parse_detail returns None or a record with a nonempty title or
company; an extracted record with both empty counts as a failed attempt, so
a run whose attempts all fail or extract empty data returns None after the
last attempt; and consequently every job that crawl_job_details forwards to
document creation has a nonempty title or company. -/
theorem parse_detail_usable_or_none (links : List String)
    (attempts : String → List Attempt) (href : String) (r : PostingDetail)
    (j : CrawledJob) :
    (parse_detail href (attempts href) = some r → r.title ≠ "" ∨ r.company ≠ "") ∧
    ((attempts href).all (attemptEmptyData href) = true →
      parse_detail href (attempts href) = none) ∧
    (j ∈ crawl_job_details links (fun h => parse_detail h (attempts h)) →
      j.detail.title ≠ "" ∨ j.detail.company ≠ "") := by
  refine ⟨parse_detail_some_usable href (attempts href) r,
    parse_detail_all_empty_none href (attempts href), ?_⟩
  intro hj
  rw [crawl_job_details, List.mem_filterMap] at hj
  obtain ⟨p, _, hp⟩ := hj
  rw [Option.map_eq_some'] at hp
  obtain ⟨r2, hr2, hj2⟩ := hp
  have := parse_detail_some_usable p.2 (attempts p.2) r2 hr2
  subst hj2
  exact this

/-- A stub page whose extraction yields a title and a company. -/
def markupGoodW : Markup := ⟨some "Backend Engineer", some "Acme", none, none, none, []⟩

/-- A stub attempt environment: one link renders fine, every other link
renders once with a timeout and once with an empty page. -/
def attemptsW : String → List Attempt := fun h =>
  if h = "/wd/good" then [Attempt.page markupGoodW]
  else [Attempt.exn, Attempt.page emptyMarkup]

/-- The record the stub page extracts. -/
def recGoodW : PostingDetail := extractRecord "/wd/good" markupGoodW

/-- The job built from the stub record. -/
def jobGoodW : CrawledJob := ⟨recGoodW, "wanted", 1⟩

/-- Witness for C5: a successful parse at a concrete page has a nonempty
title; a concrete all-failing attempt list yields None; the concrete crawled
job forwarded to document creation is usable. -/
theorem parse_detail_usable_or_none_witness :
    (recGoodW.title ≠ "" ∨ recGoodW.company ≠ "") ∧
    parse_detail "/wd/bad" (attemptsW "/wd/bad") = none ∧
    (jobGoodW.detail.title ≠ "" ∨ jobGoodW.detail.company ≠ "") :=
  ⟨(parse_detail_usable_or_none ["/wd/good", "/wd/bad"] attemptsW "/wd/good"
      recGoodW jobGoodW).1 rfl,
   (parse_detail_usable_or_none ["/wd/good", "/wd/bad"] attemptsW "/wd/bad"
      recGoodW jobGoodW).2.1 rfl,
   (parse_detail_usable_or_none ["/wd/good", "/wd/bad"] attemptsW "/wd/good"
      recGoodW jobGoodW).2.2 (by decide)⟩

/-! ## Batching lemmas for save_to_pinecone -/

/-- chunkedAux ignores the fuel as long as it covers the list length. -/
theorem chunkedAux_fuel : ∀ (f g : Nat) (l : List PineDocument),
    l.length ≤ f → l.length ≤ g → chunkedAux f l = chunkedAux g l := by
  intro f
  induction f with
  | zero =>
    intro g l hf _
    have : l = [] := List.eq_nil_of_length_eq_zero (Nat.le_zero.mp hf)
    subst this
    cases g <;> rfl
  | succ f ih =>
    intro g l hf hg
    cases l with
    | nil => cases g <;> rfl
    | cons d rest =>
      cases g with
      | zero => simp at hg
      | succ g =>
        rw [chunkedAux, chunkedAux]
        have hlen : ((d :: rest).drop 10).length ≤ f := by
          simp only [List.length_drop, List.length_cons]
          simp only [List.length_cons] at hf
          omega
        have hleng : ((d :: rest).drop 10).length ≤ g := by
          simp only [List.length_drop, List.length_cons]
          simp only [List.length_cons] at hg
          omega
        rw [ih g ((d :: rest).drop 10) hlen hleng]

/-- The slicing loop unfolds one batch at a time. -/
theorem chunked_cons (l : List PineDocument) (h : l ≠ []) :
    chunked l = l.take 10 :: chunked (l.drop 10) := by
  cases l with
  | nil => exact absurd rfl h
  | cons d rest =>
    show chunkedAux (rest.length + 1) (d :: rest) = _
    rw [chunkedAux]
    unfold chunked
    rw [chunkedAux_fuel rest.length ((d :: rest).drop 10).length ((d :: rest).drop 10)
      (by simp only [List.length_drop, List.length_cons]; omega) (Nat.le_refl _)]

/-- chunked is empty exactly on the empty document list. -/
theorem chunked_eq_nil_iff (l : List PineDocument) : chunked l = [] ↔ l = [] := by
  constructor
  · intro h
    by_contra hne
    rw [chunked_cons l hne] at h
    exact List.cons_ne_nil _ _ h
  · intro h
    subst h
    rfl

/-- The batches concatenate back to the original document list: the
partition loses and duplicates nothing. -/
theorem chunked_join : ∀ (n : Nat) (l : List PineDocument), l.length ≤ n →
    (chunked l).flatten = l := by
  intro n
  induction n with
  | zero =>
    intro l hl
    have : l = [] := List.eq_nil_of_length_eq_zero (Nat.le_zero.mp hl)
    subst this
    rfl
  | succ n ih =>
    intro l hl
    by_cases hne : l = []
    · subst hne
      rfl
    · rw [chunked_cons l hne, List.flatten_cons]
      have hlen : (l.drop 10).length ≤ n := by
        rw [List.length_drop]
        have : l.length ≠ 0 := fun h0 => hne (List.eq_nil_of_length_eq_zero h0)
        omega
      rw [ih (l.drop 10) hlen, List.take_append_drop]

/-- Every batch is nonempty and holds at most 10 documents. -/
theorem chunked_sizes : ∀ (n : Nat) (l : List PineDocument), l.length ≤ n →
    ∀ b ∈ chunked l, 0 < b.length ∧ b.length ≤ 10 := by
  intro n
  induction n with
  | zero =>
    intro l hl b hb
    have : l = [] := List.eq_nil_of_length_eq_zero (Nat.le_zero.mp hl)
    subst this
    simp [chunked, chunkedAux] at hb
  | succ n ih =>
    intro l hl b hb
    by_cases hne : l = []
    · subst hne
      simp [chunked, chunkedAux] at hb
    · rw [chunked_cons l hne, List.mem_cons] at hb
      rcases hb with rfl | hb
      · rw [List.length_take]
        have : l.length ≠ 0 := fun h0 => hne (List.eq_nil_of_length_eq_zero h0)
        omega
      · have hlen : (l.drop 10).length ≤ n := by
          rw [List.length_drop]
          have : l.length ≠ 0 := fun h0 => hne (List.eq_nil_of_length_eq_zero h0)
          omega
        exact ih (l.drop 10) hlen b hb

/-- Every batch except possibly the last holds exactly 10 documents. -/
theorem chunked_full_batches : ∀ (n : Nat) (l : List PineDocument), l.length ≤ n →
    ∀ i, i + 1 < (chunked l).length → ((chunked l).getD i []).length = 10 := by
  intro n
  induction n with
  | zero =>
    intro l hl i hi
    have : l = [] := List.eq_nil_of_length_eq_zero (Nat.le_zero.mp hl)
    subst this
    simp [chunked, chunkedAux] at hi
  | succ n ih =>
    intro l hl i hi
    by_cases hne : l = []
    · subst hne
      simp [chunked, chunkedAux] at hi
    · rw [chunked_cons l hne] at hi ⊢
      have hlen : (l.drop 10).length ≤ n := by
        rw [List.length_drop]
        have : l.length ≠ 0 := fun h0 => hne (List.eq_nil_of_length_eq_zero h0)
        omega
      cases i with
      | zero =>
        simp only [List.length_cons] at hi
        have hdne : chunked (l.drop 10) ≠ [] := by
          intro h0
          rw [h0] at hi
          simp at hi
        have hdrop : l.drop 10 ≠ [] := by
          intro h0
          exact hdne ((chunked_eq_nil_iff _).mpr h0)
        have h10 : 10 < l.length := by
          by_contra hle
          exact hdrop (List.drop_eq_nil_of_le (by omega))
        simp [List.length_take]
        omega
      | succ i =>
        simp only [List.length_cons, Nat.add_lt_add_iff_right] at hi
        simpa using ih (l.drop 10) hlen i hi

/-- The save loop emits exactly one event per batch, in order, regardless of
which batches fail. -/
theorem saveLoop_eq_enumFrom (fails : Nat → Bool) :
    ∀ (cs : List (List PineDocument)) (i : Nat),
    saveLoop fails i cs = (List.enumFrom i cs).map
      (fun p => if fails p.1 then BatchEvent.failed p.2.length
        else BatchEvent.saved p.2.length) := by
  intro cs
  induction cs with
  | nil => intro i; rfl
  | cons b rest ih =>
    intro i
    simp only [saveLoop, List.enumFrom, List.map_cons, ih (i + 1)]

/-- The accumulated saved count equals the sum of the sizes of the batches
whose add did not throw. -/
theorem savedCount_saveLoop (fails : Nat → Bool) :
    ∀ (cs : List (List PineDocument)) (i : Nat),
    savedCount (saveLoop fails i cs) =
      ((List.enumFrom i cs).map (fun p => if fails p.1 then 0 else p.2.length)).sum := by
  intro cs
  induction cs with
  | nil => intro i; rfl
  | cons b rest ih =>
    intro i
    by_cases h : fails i
    · simp only [saveLoop, if_pos h, savedCount, List.enumFrom, List.map_cons,
        List.sum_cons, ih (i + 1)]
      omega
    · simp only [saveLoop, if_neg h, savedCount, List.enumFrom, List.map_cons,
        List.sum_cons, ih (i + 1)]

/-- C8: save_to_pinecone partitions the document list into batches of 10
(the last batch possibly smaller but never empty, and the batches
concatenating back to the input), attempts every batch in order even when
earlier batches throw (one trace event per batch, in order), and returns a
saved count equal to the total size of the batches whose add succeeded. -/
theorem save_to_pinecone_batches (docs : List PineDocument) (fails : Nat → Bool) :
    (chunked docs).flatten = docs ∧
    (∀ b ∈ chunked docs, 0 < b.length ∧ b.length ≤ 10) ∧
    (∀ i, i + 1 < (chunked docs).length → ((chunked docs).getD i []).length = 10) ∧
    (save_to_pinecone fails docs).2 = (chunked docs).enum.map
      (fun p => if fails p.1 then BatchEvent.failed p.2.length
        else BatchEvent.saved p.2.length) ∧
    (save_to_pinecone fails docs).1 =
      ((chunked docs).enum.map (fun p => if fails p.1 then 0 else p.2.length)).sum := by
  refine ⟨chunked_join docs.length docs (Nat.le_refl _),
    chunked_sizes docs.length docs (Nat.le_refl _),
    chunked_full_batches docs.length docs (Nat.le_refl _), ?_, ?_⟩
  · unfold save_to_pinecone
    by_cases h : docs.isEmpty
    · have hd : docs = [] := by
        cases docs with
        | nil => rfl
        | cons a l => simp at h
      subst hd
      rfl
    · rw [if_neg h]
      exact saveLoop_eq_enumFrom fails (chunked docs) 0
  · unfold save_to_pinecone
    by_cases h : docs.isEmpty
    · have hd : docs = [] := by
        cases docs with
        | nil => rfl
        | cons a l => simp at h
      subst hd
      rfl
    · rw [if_neg h]
      exact savedCount_saveLoop fails (chunked docs) 0

/-- Twelve identical documents: enough for a full batch of 10 and a tail
batch of 2. -/
def docsW : List PineDocument := List.replicate 12 (mkDocument jobGoodW)

/-- The first batch add throws, every other batch succeeds. -/
def failsW : Nat → Bool := fun i => i == 0

/-- Witness for C8 at 12 documents with the first batch failing: batches of
sizes 10 and 2, both attempted in order, saved count 2. -/
theorem save_to_pinecone_batches_witness :
    (chunked docsW).flatten = docsW ∧
    ((chunked docsW).getD 0 []).length = 10 ∧
    (save_to_pinecone failsW docsW).2 = [BatchEvent.failed 10, BatchEvent.saved 2] ∧
    (save_to_pinecone failsW docsW).1 = 2 := by
  obtain ⟨h1, _, h3, h4, h5⟩ := save_to_pinecone_batches docsW failsW
  exact ⟨h1, h3 0 (by decide), by rw [h4]; rfl, by rw [h5]; rfl⟩

/-! ## Discovery-loop lemmas -/

/-- Scanning a page never shrinks the discovered set. -/
theorem addLinks_length_le (found : List String) :
    ∀ hrefs : List String, hrefs.length ≤ (addLinks hrefs found).length := by
  induction found with
  | nil => intro hrefs; exact Nat.le_refl _
  | cons h t ih =>
    intro hrefs
    unfold addLinks
    rw [List.foldl_cons]
    refine Nat.le_trans ?_ (ih (if h ∈ hrefs then hrefs else hrefs ++ [h]))
    by_cases hm : h ∈ hrefs
    · rw [if_pos hm]
    · rw [if_neg hm, List.length_append]
      simp

/-- Scanning a page preserves duplicate-freedom of the discovered set: a
link already present is never inserted twice. -/
theorem addLinks_nodup (found : List String) :
    ∀ hrefs : List String, hrefs.Nodup → (addLinks hrefs found).Nodup := by
  induction found with
  | nil => intro hrefs hnd; exact hnd
  | cons h t ih =>
    intro hrefs hnd
    unfold addLinks
    rw [List.foldl_cons]
    refine ih (if h ∈ hrefs then hrefs else hrefs ++ [h]) ?_
    by_cases hm : h ∈ hrefs
    · rw [if_pos hm]
      exact hnd
    · rw [if_neg hm, List.nodup_append]
      refine ⟨hnd, List.nodup_singleton h, ?_⟩
      intro a ha hb
      rw [List.mem_singleton] at hb
      subst hb
      exact hm ha

/-- What a cycle that stops reports: the scanned set, unchanged height and
cycle index, and a reason that is correct for the state. -/
theorem discoveryCycle_inr {maxLinks : Nat} {st : CrawlState} {pv : PageView}
    {st2 : CrawlState} {r : StopReason}
    (h : discoveryCycle maxLinks st pv = Sum.inr (st2, r)) :
    st2.hrefs = addLinks st.hrefs pv.links ∧ st2.cycles = st.cycles ∧
    st2.lastHeight = st.lastHeight ∧
    ((r = StopReason.sizeReached ∧ maxLinks ≤ st2.hrefs.length) ∨
      (r = StopReason.heightStable ∧ pv.height = st.lastHeight)) := by
  simp only [discoveryCycle] at h
  by_cases h1 : maxLinks ≤ (addLinks st.hrefs pv.links).length
  · rw [if_pos h1] at h
    cases h
    exact ⟨rfl, rfl, rfl, Or.inl ⟨rfl, h1⟩⟩
  · rw [if_neg h1] at h
    by_cases h2 : pv.height = st.lastHeight
    · rw [if_pos h2] at h
      cases h
      exact ⟨rfl, rfl, rfl, Or.inr ⟨rfl, h2⟩⟩
    · rw [if_neg h2] at h
      simp at h

/-- What a cycle that continues carries into the next iteration. -/
theorem discoveryCycle_inl {maxLinks : Nat} {st : CrawlState} {pv : PageView}
    {st2 : CrawlState} (h : discoveryCycle maxLinks st pv = Sum.inl st2) :
    st2.hrefs = addLinks st.hrefs pv.links ∧
    st2.voidCnt = (if st.hrefs.length < st2.hrefs.length then 0 else st.voidCnt + 1) ∧
    st2.hrefs.length < maxLinks ∧ pv.height ≠ st.lastHeight ∧
    st2.cycles = st.cycles + 1 := by
  simp only [discoveryCycle] at h
  by_cases h1 : maxLinks ≤ (addLinks st.hrefs pv.links).length
  · rw [if_pos h1] at h
    simp at h
  · rw [if_neg h1] at h
    by_cases h2 : pv.height = st.lastHeight
    · rw [if_pos h2] at h
      simp at h
    · rw [if_neg h2] at h
      cases h
      exact ⟨rfl, rfl, Nat.lt_of_not_le h1, h2, rfl⟩

/-- Termination measure of the discovery loop: a cycle that finds new links
shrinks the first summand by at least 4 while the void reset costs at most
3, and a void cycle shrinks the second summand by 1. -/
def stMeasure (maxLinks : Nat) (st : CrawlState) : Nat :=
  4 * (maxLinks - st.hrefs.length) + (3 - st.voidCnt)

/-- Any run of the loop whose fuel exceeds the measure of its starting
state finishes with a normal stop whose reason is sound for the final
state, provided no cycle raises. -/
theorem runLoop_ok (maxLinks : Nat) (page : Nat → Option PageView)
    (hp : ∀ t, (page t).isSome = true) :
    ∀ (fuel : Nat) (st : CrawlState), st.voidCnt ≤ 3 →
      stMeasure maxLinks st < fuel →
      stopFact page maxLinks (runLoop maxLinks page fuel st) = true := by
  intro fuel
  induction fuel with
  | zero => intro st _ hM; exact absurd hM (Nat.not_lt_zero _)
  | succ fuel ih =>
    intro st hv hM
    rw [runLoop]
    by_cases h1 : maxLinks ≤ st.hrefs.length
    · rw [if_pos h1]
      exact decide_eq_true h1
    · rw [if_neg h1]
      by_cases h2 : 3 ≤ st.voidCnt
      · rw [if_pos h2]
        exact decide_eq_true (Nat.le_antisymm hv h2)
      · rw [if_neg h2]
        obtain ⟨pv, hpv⟩ := Option.isSome_iff_exists.mp (hp st.cycles)
        cases hcyc : discoveryCycle maxLinks st pv with
        | inr pr =>
          obtain ⟨st2, r⟩ := pr
          obtain ⟨hh, hc, hl, hr⟩ := discoveryCycle_inr hcyc
          simp only [hpv, hcyc]
          rcases hr with ⟨hr, hsz⟩ | ⟨hr, hht⟩
          · subst hr
            exact decide_eq_true hsz
          · subst hr
            apply decide_eq_true
            rw [hc, hpv, Option.map_some', hl, hht]
        | inl st2 =>
          obtain ⟨hh, hvq, hlen, _, _⟩ := discoveryCycle_inl hcyc
          simp only [hpv, hcyc]
          have hle : st.hrefs.length ≤ st2.hrefs.length := by
            rw [hh]
            exact addLinks_length_le pv.links st.hrefs
          apply ih st2
          · rw [hvq]
            by_cases hadd : st.hrefs.length < st2.hrefs.length
            · rw [if_pos hadd]
              omega
            · rw [if_neg hadd]
              omega
          · by_cases hadd : st.hrefs.length < st2.hrefs.length
            · have hv0 : st2.voidCnt = 0 := by rw [hvq, if_pos hadd]
              unfold stMeasure at hM ⊢
              rw [hv0]
              omega
            · have heq : st2.hrefs.length = st.hrefs.length :=
                Nat.le_antisymm (Nat.not_lt.mp hadd) hle
              have hv1 : st2.voidCnt = st.voidCnt + 1 := by rw [hvq, if_neg hadd]
              unfold stMeasure at hM ⊢
              rw [hv1, heq]
              omega

/-- C2: on any exception-free page environment the discovery loop
terminates within 4 * maxLinks + 4 cycles, and it stops exactly through one
of the three exits: the discovered set reached maxLinks, the measured
scroll height equals the height recorded by the previous cycle (0 before
the first), or the void counter reached 3 after three consecutive cycles
without a new link (the counter is reset by any cycle that adds one, as
discoveryCycle defines). -/
theorem collect_job_links_terminates (maxLinks : Nat) (page : Nat → Option PageView)
    (hp : ∀ t, (page t).isSome = true) :
    stopFact page maxLinks (runLoop maxLinks page (4 * maxLinks + 4) initState) = true := by
  apply runLoop_ok maxLinks page hp
  · exact Nat.zero_le 3
  · unfold stMeasure initState
    simp

/-- A stub page with no cards and constant height: stops via the
height-stable exit on the second cycle. -/
def pageStableW : Nat → Option PageView := fun _ => some ⟨[], 5⟩

/-- Witness for C2 at a concrete exception-free page. -/
theorem collect_job_links_terminates_witness :
    stopFact pageStableW 2 (runLoop 2 pageStableW (4 * 2 + 4) initState) = true :=
  collect_job_links_terminates 2 pageStableW (fun _ => rfl)

/-- The discovered set stays duplicate-free through any run of the loop. -/
theorem runLoop_nodup (maxLinks : Nat) (page : Nat → Option PageView) :
    ∀ (fuel : Nat) (st st2 : CrawlState) (r : StopReason), st.hrefs.Nodup →
      runLoop maxLinks page fuel st = CrawlResult.ok st2 r → st2.hrefs.Nodup := by
  intro fuel
  induction fuel with
  | zero =>
    intro st st2 r _ h
    rw [runLoop] at h
    exact CrawlResult.noConfusion h
  | succ fuel ih =>
    intro st st2 r hnd h
    rw [runLoop] at h
    by_cases h1 : maxLinks ≤ st.hrefs.length
    · rw [if_pos h1] at h
      cases h
      exact hnd
    · rw [if_neg h1] at h
      by_cases h2 : 3 ≤ st.voidCnt
      · rw [if_pos h2] at h
        cases h
        exact hnd
      · rw [if_neg h2] at h
        cases hpv : page st.cycles with
        | none =>
          rw [hpv] at h
          exact CrawlResult.noConfusion h
        | some pv =>
          cases hcyc : discoveryCycle maxLinks st pv with
          | inr pr =>
            obtain ⟨st3, r3⟩ := pr
            simp only [hpv, hcyc] at h
            obtain ⟨hh, _, _, _⟩ := discoveryCycle_inr hcyc
            cases h
            rw [hh]
            exact addLinks_nodup pv.links st.hrefs hnd
          | inl st3 =>
            simp only [hpv, hcyc] at h
            obtain ⟨hh, _, _, _, _⟩ := discoveryCycle_inl hcyc
            refine ih st3 st2 r ?_ h
            rw [hh]
            exact addLinks_nodup pv.links st.hrefs hnd

/-- C1: whatever the page environment, the enumeration order of the set and
the available fuel, a completed run of collect_job_links returns at most
maxLinks links with no duplicate among them (the exception path returns the
empty list, which satisfies both bounds). -/
theorem collect_job_links_bounded_nodup (maxLinks : Nat) (page : Nat → Option PageView)
    (enum : List String → List String) (fuel : Nat) (links : List String)
    (henum : ∀ l, List.Perm (enum l) l)
    (h : collect_job_links maxLinks page enum fuel = some links) :
    links.length ≤ maxLinks ∧ links.Nodup := by
  unfold collect_job_links at h
  cases hrun : runLoop maxLinks page fuel initState with
  | ok st r =>
    rw [hrun] at h
    injection h with h2
    subst h2
    constructor
    · rw [List.length_take]
      exact Nat.min_le_left _ _
    · have hnd : st.hrefs.Nodup :=
        runLoop_nodup maxLinks page fuel initState st r List.nodup_nil hrun
      have hnd2 : (enum st.hrefs).Nodup := ((henum st.hrefs).nodup_iff).mpr hnd
      exact List.Nodup.sublist (List.take_sublist _ _) hnd2
  | exn st =>
    rw [hrun] at h
    injection h with h2
    subst h2
    exact ⟨Nat.zero_le _, List.nodup_nil⟩
  | fuelOut st =>
    rw [hrun] at h
    exact Option.noConfusion h

/-- A stub page exposing two cards at once. -/
def pageTwoW : Nat → Option PageView := fun _ => some ⟨["/wd/a", "/wd/b"], 7⟩

/-- Witness for C1: a concrete run with maxLinks 1 returns one link,
within the bound and duplicate-free. -/
theorem collect_job_links_bounded_nodup_witness :
    (["/wd/a"] : List String).length ≤ 1 ∧ (["/wd/a"] : List String).Nodup :=
  collect_job_links_bounded_nodup 1 pageTwoW id 8 ["/wd/a"]
    (fun l => List.Perm.refl l) rfl

/-- C3 (amended): a completed discovery run returns exactly
min(maxLinks, size of the discovered set) links, each of them a discovered
link, with no duplicates; the output is a truncated enumeration of the
Python set, whose iteration order is unspecified, so the returned order is
not guaranteed to be discovery order (the original order promise fails, see
the counterexample). -/
theorem collect_job_links_output_from_set (maxLinks : Nat)
    (page : Nat → Option PageView) (enum : List String → List String) (fuel : Nat)
    (st : CrawlState) (r : StopReason) (links : List String)
    (henum : ∀ l, List.Perm (enum l) l)
    (hrun : runLoop maxLinks page fuel initState = CrawlResult.ok st r)
    (h : collect_job_links maxLinks page enum fuel = some links) :
    links.length = min maxLinks st.hrefs.length ∧
    links ⊆ st.hrefs ∧ links.Nodup := by
  unfold collect_job_links at h
  rw [hrun] at h
  injection h with h2
  subst h2
  refine ⟨?_, ?_, ?_⟩
  · rw [List.length_take, (henum st.hrefs).length_eq]
  · intro x hx
    have hx2 : x ∈ enum st.hrefs := (List.take_sublist _ _).subset hx
    exact ((henum st.hrefs).mem_iff).mp hx2
  · have hnd : st.hrefs.Nodup :=
      runLoop_nodup maxLinks page fuel initState st r List.nodup_nil hrun
    exact List.Nodup.sublist (List.take_sublist _ _) (((henum st.hrefs).nodup_iff).mpr hnd)

/-- The twelve unique card anchors of the order scenario. -/
def twelveLinks : List String :=
  ["/wd/1", "/wd/2", "/wd/3", "/wd/4", "/wd/5", "/wd/6",
   "/wd/7", "/wd/8", "/wd/9", "/wd/10", "/wd/11", "/wd/12"]

/-- A stub listing exposing the twelve anchors at once. -/
def page12W : Nat → Option PageView := fun _ => some ⟨twelveLinks, 100⟩

/-- Witness for C3 (amended) on the 12-anchor, maxLinks = 10 scenario with
the identity enumeration: exactly 10 links, all discovered, no duplicates. -/
theorem collect_job_links_output_from_set_witness :
    (["/wd/1", "/wd/2", "/wd/3", "/wd/4", "/wd/5", "/wd/6", "/wd/7", "/wd/8",
      "/wd/9", "/wd/10"] : List String).length = min 10 twelveLinks.length ∧
    (["/wd/1", "/wd/2", "/wd/3", "/wd/4", "/wd/5", "/wd/6", "/wd/7", "/wd/8",
      "/wd/9", "/wd/10"] : List String) ⊆ twelveLinks ∧
    (["/wd/1", "/wd/2", "/wd/3", "/wd/4", "/wd/5", "/wd/6", "/wd/7", "/wd/8",
      "/wd/9", "/wd/10"] : List String).Nodup :=
  collect_job_links_output_from_set 10 page12W id 50 ⟨twelveLinks, 0, 0, 0⟩
    StopReason.sizeReached _ (fun l => List.Perm.refl l) rfl rfl

/-- C3 counterexample: list(set) may enumerate the discovered set in any
order; under the (legitimate, permutation-valued) reversed enumeration the
12-anchor scenario with maxLinks = 10 returns neither the first ten by
discovery order nor even the same ten links. -/
theorem collect_job_links_order_counterexample :
    List.Perm (List.reverse twelveLinks) twelveLinks ∧
    collect_job_links 10 page12W List.reverse 50 =
      some ["/wd/12", "/wd/11", "/wd/10", "/wd/9", "/wd/8", "/wd/7", "/wd/6",
        "/wd/5", "/wd/4", "/wd/3"] ∧
    (["/wd/12", "/wd/11", "/wd/10", "/wd/9", "/wd/8", "/wd/7", "/wd/6",
      "/wd/5", "/wd/4", "/wd/3"] : List String) ≠
      ["/wd/1", "/wd/2", "/wd/3", "/wd/4", "/wd/5", "/wd/6", "/wd/7", "/wd/8",
        "/wd/9", "/wd/10"] :=
  ⟨List.reverse_perm twelveLinks, rfl, by decide⟩

/-- C4 (amended): any exception during the discovery loop is caught and
collect_job_links returns the empty sequence, discarding whatever links had
already been discovered — contrary to the original claim that a non-empty
discovered set is returned; discovery indeed never propagates the
exception, the except branch always produces a value. -/
theorem collect_job_links_exception_empty (maxLinks : Nat)
    (page : Nat → Option PageView) (enum : List String → List String)
    (fuel : Nat) (st : CrawlState)
    (h : runLoop maxLinks page fuel initState = CrawlResult.exn st) :
    collect_job_links maxLinks page enum fuel = some [] := by
  unfold collect_job_links
  rw [h]

/-- A stub page that reveals two links in cycle 0 and raises in cycle 1. -/
def pageExnW : Nat → Option PageView := fun t =>
  if t = 0 then some ⟨["/wd/a", "/wd/b"], 7⟩ else none

/-- Witness for C4 (amended) at the concrete raising page. -/
theorem collect_job_links_exception_empty_witness :
    collect_job_links 500 pageExnW id 10 = some [] :=
  collect_job_links_exception_empty 500 pageExnW id 10
    ⟨["/wd/a", "/wd/b"], 0, 7, 1⟩ rfl

/-- C4 counterexample: on the concrete raising page the loop aborts holding
two discovered links, yet collect_job_links returns the empty list rather
than the non-empty discovered-so-far list the claim promises. -/
theorem collect_job_links_exception_counterexample :
    runLoop 500 pageExnW 10 initState =
      CrawlResult.exn ⟨["/wd/a", "/wd/b"], 0, 7, 1⟩ ∧
    collect_job_links 500 pageExnW id 10 = some [] ∧
    some ([] : List String) ≠ some ["/wd/a", "/wd/b"] :=
  ⟨rfl, rfl, by decide⟩

/-- C9 (amended): a run past session establishment writes a summary exactly
when discovery returned at least one link and at least one detail fetch
succeeded; batch failures never suppress the summary (the iff right side
does not mention fails), they only reduce total_saved; runs with no links
or no crawled jobs return early without a summary, contrary to the original
claim (see the counterexample). -/
theorem mainModel_summary_iff (maxLinks : Nat) (page : Nat → Option PageView)
    (enum : List String → List String) (fuel : Nat)
    (attempts : String → List Attempt) (fails : Nat → Bool) (links : List String)
    (hcol : collect_job_links maxLinks page enum fuel = some links) :
    (mainModel maxLinks page enum fuel attempts fails = none ↔
      (links.isEmpty = true ∨
        (crawl_job_details links fun h => parse_detail h (attempts h)).isEmpty = true)) ∧
    (mainModel maxLinks page enum fuel attempts fails = none ∨
      mainModel maxLinks page enum fuel attempts fails =
        some ⟨links.length,
          (crawl_job_details links fun h => parse_detail h (attempts h)).length,
          (save_to_pinecone fails (create_documents
            (crawl_job_details links fun h => parse_detail h (attempts h)))).1⟩) := by
  unfold mainModel
  simp only [hcol]
  by_cases h1 : links.isEmpty = true
  · simp only [if_pos h1]
    refine ⟨⟨fun _ => Or.inl h1, fun _ => by trivial⟩, Or.inl (by trivial)⟩
  · simp only [if_neg h1]
    by_cases h2 : (crawl_job_details links fun h => parse_detail h (attempts h)).isEmpty = true
    · simp only [if_pos h2]
      refine ⟨⟨fun _ => Or.inr h2, fun _ => by trivial⟩, Or.inl (by trivial)⟩
    · simp only [if_neg h2]
      refine ⟨⟨fun hc => by simp at hc, fun hor => ?_⟩, Or.inr (by trivial)⟩
      rcases hor with h | h
      · exact absurd h h1
      · exact absurd h h2

/-- Witness for C9 (amended) on a concrete run where one link is found, its
detail fetch succeeds and no batch fails: a summary appears with all counts
equal to 1. -/
theorem mainModel_summary_iff_witness :
    (mainModel 1 pageTwoW id 8 (fun _ => [Attempt.page markupGoodW]) (fun _ => false)
        = none ↔
      ((["/wd/a"] : List String).isEmpty = true ∨
        (crawl_job_details ["/wd/a"]
          fun h => parse_detail h [Attempt.page markupGoodW]).isEmpty = true)) ∧
    (mainModel 1 pageTwoW id 8 (fun _ => [Attempt.page markupGoodW]) (fun _ => false)
        = none ∨
      mainModel 1 pageTwoW id 8 (fun _ => [Attempt.page markupGoodW]) (fun _ => false)
        = some ⟨(["/wd/a"] : List String).length,
            (crawl_job_details ["/wd/a"]
              fun h => parse_detail h [Attempt.page markupGoodW]).length,
            (save_to_pinecone (fun _ => false) (create_documents
              (crawl_job_details ["/wd/a"]
                fun h => parse_detail h [Attempt.page markupGoodW]))).1⟩) :=
  mainModel_summary_iff 1 pageTwoW id 8 (fun _ => [Attempt.page markupGoodW])
    (fun _ => false) ["/wd/a"] rfl

/-- A stub listing that renders but never shows a card: discovery
establishes the session and returns the empty link list. -/
def pageNoLinksW : Nat → Option PageView := fun _ => some ⟨[], 0⟩

/-- C9 counterexample: a run that gets past session establishment but whose
discovery returns no links ends with no summary at all, where the claim
promises one. -/
theorem mainModel_no_summary_counterexample :
    collect_job_links 10 pageNoLinksW id 50 = some [] ∧
    mainModel 10 pageNoLinksW id 50 (fun _ => []) (fun _ => false) = none :=
  ⟨rfl, rfl⟩
